import Mathlib

/-!
Verification of the go-chat relay server (room-based variant, `server.go`:
`broadcast`, `sendToUser`, `handleWS`, the `rooms` registry and the `Room`
structure) against its natural-language specification.

The embedding is shallow and sequential: each lock-protected critical
section of the Go code becomes one atomic Lean function on an explicit
server state.  Go maps become association lists with the usual
lookup/insert/erase operations; connection handles (`*websocket.Conn`)
become natural-number identities; the `rooms` registry maps room ids to
room references (heap addresses), so that distinct `Room` instances
registered under the same id over time are distinguishable, exactly as Go
pointers are.  Network sends become lists of `(recipient, envelope)`
deliveries returned by the functions that perform them.
-/

namespace GoChat

/-- Identity of one `*websocket.Conn`; equality is pointer equality. -/
abbrev Conn := Nat

/-- Heap address of one `Room` instance (a Go pointer `*Room`). -/
abbrev RoomRef := Nat

/-- The wire envelope `WSMessage` of `server.go`: fields `Type`, `From`,
`To`, `RoomID`, `Payload`, `PublicKey`, all strings, zero-valued (`""`)
when absent. -/
structure WSMessage where
  type : String
  from_ : String
  to_ : String
  roomId : String
  payload : String
  publicKey : String
deriving DecidableEq, Repr

/-- Lookup in an association list, the embedding of a Go map read
`v, ok := m[k]`. -/
def lookupKey {α β : Type} [DecidableEq α] (k : α) : List (α × β) → Option β
  | [] => none
  | (k', v) :: rest => if k' = k then some v else lookupKey k rest

/-- The embedding of a Go map write `m[k] = v`: replace in place when the
key is present, append otherwise. -/
def insertKey {α β : Type} [DecidableEq α] (k : α) (v : β) : List (α × β) → List (α × β)
  | [] => [(k, v)]
  | (k', v') :: rest => if k' = k then (k, v) :: rest else (k', v') :: insertKey k v rest

/-- The embedding of a Go map delete `delete(m, k)`. -/
def eraseKey {α β : Type} [DecidableEq α] (k : α) : List (α × β) → List (α × β)
  | [] => []
  | (k', v) :: rest => if k' = k then eraseKey k rest else (k', v) :: eraseKey k rest

/-- The `Room` structure of `server.go`: `clients` maps connection to
username, `publicKeys` maps username to public-key blob.  The per-room
mutex serializes access; in this sequential embedding each operation on a
room is one atomic step. -/
structure Room where
  clients : List (Conn × String)
  publicKeys : List (String × String)
deriving DecidableEq, Repr

/-- A freshly allocated `&Room{publicKeys: make(...), clients: make(...)}`. -/
def Room.empty : Room := ⟨[], []⟩

/-- The process-wide state: the `rooms` registry (room id to room
reference), the heap of allocated `Room` instances, and the next fresh
heap address. -/
structure ServerState where
  registry : List (String × RoomRef)
  heap : List (RoomRef × Room)
  nextRef : RoomRef
deriving DecidableEq, Repr

/-- Dereference a room pointer.  Go pointers are always valid; a dangling
reference (impossible in executions we consider) dereferences to the empty
room. -/
def getRoom (s : ServerState) (ref : RoomRef) : Room :=
  (lookupKey ref s.heap).getD Room.empty

/-- `broadcast(room, exclude, msg)` of `server.go`: on a nil room, return
with no deliveries; otherwise snapshot the connections of `room.clients`
other than `exclude` and deliver `msg` to each once.  `exclude = none`
embeds a nil exclude pointer, which equals no live connection. -/
def broadcast (room : Option Room) (exclude : Option Conn) (msg : WSMessage) :
    List (Conn × WSMessage) :=
  match room with
  | none => []
  | some r => (r.clients.filter (fun p => some p.1 ≠ exclude)).map (fun p => (p.1, msg))

/-- The linear scan of `sendToUser`: the first connection whose registered
name equals `username` (the Go loop breaks at the first match). -/
def findConn (clients : List (Conn × String)) (username : String) : Option Conn :=
  match clients with
  | [] => none
  | (c, n) :: rest => if n = username then some c else findConn rest username

/-- `sendToUser(room, username, msg)` of `server.go`: nil room is a no-op;
otherwise deliver `msg` to the connection currently mapped to `username`
in `room.clients`, if any, and do nothing when there is none. -/
def sendToUser (room : Option Room) (username : String) (msg : WSMessage) :
    List (Conn × WSMessage) :=
  match room with
  | none => []
  | some r =>
    match findConn r.clients username with
    | none => []
    | some c => [(c, msg)]

/-- The registry critical section of `handleWS` (get or create the room
for `roomID` under the global mutex `mu`): return the registered reference
when present, otherwise allocate a fresh empty `Room` and register it. -/
def resolveOrCreate (s : ServerState) (roomID : String) : ServerState × RoomRef :=
  match lookupKey roomID s.registry with
  | some ref => (s, ref)
  | none =>
    let ref := s.nextRef
    ({ registry := insertKey roomID ref s.registry,
       heap := insertKey ref Room.empty s.heap,
       nextRef := ref + 1 }, ref)

/-- The registration critical section of `handleWS` (under `room.mu`): if
`username` is already a key of `room.publicKeys`, mutate nothing and
report the collision (`false`); otherwise add `conn ↦ username` to
`room.clients` and `username ↦ pubKey` to `room.publicKeys` and report
success (`true`). -/
def registerConn (s : ServerState) (ref : RoomRef) (conn : Conn)
    (username pubKey : String) : ServerState × Bool :=
  let room := getRoom s ref
  match lookupKey username room.publicKeys with
  | some _ => (s, false)
  | none =>
    let room' : Room :=
      { clients := insertKey conn username room.clients,
        publicKeys := insertKey username pubKey room.publicKeys }
    ({ s with heap := insertKey ref room' s.heap }, true)

/-- The envelope `{Type: "leave", From: username}`. -/
def leaveMsg (username : String) : WSMessage :=
  ⟨"leave", username, "", "", "", ""⟩

/-- The deferred cleanup of `handleWS` (under `room.mu`), for a connection
that reached the registered phase (`room != nil && username != ""`): if
`conn` is still in `room.clients`, remove it and remove `username` from
`room.publicKeys`; if the room's `clients` map is now empty, delete the
registry entry for `roomID` (the code deletes by id only, without
comparing the registered reference to `ref`); finally broadcast a `leave`
announcement to the room, excluding `conn`.  If `conn` is not in
`room.clients`, nothing happens. -/
def cleanupConn (s : ServerState) (ref : RoomRef) (roomID : String)
    (conn : Conn) (username : String) : ServerState × List (Conn × WSMessage) :=
  let room := getRoom s ref
  match lookupKey conn room.clients with
  | none => (s, [])
  | some _ =>
    let room' : Room :=
      { clients := eraseKey conn room.clients,
        publicKeys := eraseKey username room.publicKeys }
    let registry' :=
      if room'.clients.length = 0 then eraseKey roomID s.registry else s.registry
    ({ s with heap := insertKey ref room' s.heap, registry := registry' },
     broadcast (some room') (some conn) (leaveMsg username))

/-- The single-shot handshake check of `handleWS`: the first read must
decode (`m ≠ none`) and be a `join` with non-empty `From`, `PublicKey` and
`RoomID`. -/
def handshakeOK (m : Option WSMessage) : Bool :=
  match m with
  | none => false
  | some j => j.type == "join" && j.from_ != "" && j.publicKey != "" && j.roomId != ""

/-- Outcome of the join phase of `handleWS`, up to entering the relay
loop. -/
inductive JoinOutcome where
  /-- Handshake failed: connection closed, nothing sent, nothing mutated. -/
  | closed
  /-- Username collision: the error text is written to the joiner and the
  connection is closed; nothing mutated. -/
  | rejected (err : String)
  /-- Registered: the new state, the room reference, the fan-out of the
  `join` announcement, and the `pubkey` envelopes written to the joiner. -/
  | joined (s : ServerState) (ref : RoomRef)
      (announce : List (Conn × WSMessage)) (toJoiner : List WSMessage)
deriving DecidableEq, Repr

/-- The `pubkey` replay loop of `handleWS`: one envelope per entry of the
room's `publicKeys` whose name differs from the joiner's username. -/
def pubkeyReplay (room : Room) (username roomID : String) : List WSMessage :=
  (room.publicKeys.filter (fun p => p.1 ≠ username)).map
    (fun p => ⟨"pubkey", p.1, "", roomID, "", p.2⟩)

/-- The join phase of `handleWS` on the first read `m`: handshake check,
registry resolve-or-create, registration under the room lock, `join`
announcement broadcast to the room excluding the joiner, and `pubkey`
replay to the joiner. -/
def handleJoin (s : ServerState) (conn : Conn) (m : Option WSMessage) : JoinOutcome :=
  if handshakeOK m = true then
    match m with
    | none => JoinOutcome.closed
    | some join =>
      let s1ref := resolveOrCreate s join.roomId
      let s1 := s1ref.1
      let ref := s1ref.2
      let s2ok := registerConn s1 ref conn join.from_ join.publicKey
      let s2 := s2ok.1
      if s2ok.2 then
        let room := getRoom s2 ref
        JoinOutcome.joined s2 ref
          (broadcast (some room) (some conn)
            ⟨"join", join.from_, "", join.roomId, "", join.publicKey⟩)
          (pubkeyReplay room join.from_ join.roomId)
      else
        JoinOutcome.rejected "Username taken in this room"
  else
    JoinOutcome.closed

/-- Result of one iteration of the relay loop. -/
inductive RelayAction where
  /-- The read failed: return from `handleWS` (the deferred cleanup runs). -/
  | close
  /-- The loop continues with these deliveries performed. -/
  | deliver (msgs : List (Conn × WSMessage))
deriving DecidableEq, Repr

/-- One iteration of the relay loop of `handleWS` for a registered
connection (`username`, `roomID`, current room contents `room`): a failed
read (`none`) returns from the handler; a `chat` with non-empty `Payload`
and non-empty `To` is routed with `sendToUser` with `From` rewritten to
the authenticated `username`; a `clear` is broadcast to the whole room
with no exclusion; every other envelope does nothing and the loop
continues. -/
def relayStep (room : Room) (roomID username : String) (m : Option WSMessage) :
    RelayAction :=
  match m with
  | none => RelayAction.close
  | some msg =>
    if msg.type = "chat" ∧ msg.payload ≠ "" then
      if msg.to_ ≠ "" then
        RelayAction.deliver
          (sendToUser (some room) msg.to_ ⟨"chat", username, "", roomID, msg.payload, ""⟩)
      else
        RelayAction.deliver []
    else if msg.type = "clear" then
      RelayAction.deliver (broadcast (some room) none ⟨"clear", "", "", roomID, "", ""⟩)
    else
      RelayAction.deliver []

/-! ### Association-list lemmas -/

theorem lookupKey_eq_none_iff {α β : Type} [DecidableEq α] (k : α) (l : List (α × β)) :
    lookupKey k l = none ↔ k ∉ l.map Prod.fst := by
  induction l with
  | nil => simp [lookupKey]
  | cons p rest ih =>
    obtain ⟨k', v⟩ := p
    by_cases h : k' = k
    · subst h
      simp [lookupKey]
    · simp [lookupKey, h, ih, Ne.symm h]

theorem lookupKey_insertKey_self {α β : Type} [DecidableEq α] (k : α) (v : β)
    (l : List (α × β)) : lookupKey k (insertKey k v l) = some v := by
  induction l with
  | nil => simp [insertKey, lookupKey]
  | cons p rest ih =>
    obtain ⟨k', v'⟩ := p
    by_cases h : k' = k
    · subst h
      simp [insertKey, lookupKey]
    · simp [insertKey, lookupKey, h, ih]

theorem lookupKey_insertKey_ne {α β : Type} [DecidableEq α] {k' k : α} (v : β)
    (l : List (α × β)) (h : k' ≠ k) :
    lookupKey k' (insertKey k v l) = lookupKey k' l := by
  induction l with
  | nil => simp [insertKey, lookupKey, Ne.symm h]
  | cons p rest ih =>
    obtain ⟨k'', v'⟩ := p
    by_cases h2 : k'' = k
    · subst h2
      simp [insertKey, lookupKey, Ne.symm h, fun hh : k'' = k' => h (hh ▸ rfl)]
    · by_cases h3 : k'' = k'
      · subst h3
        simp [insertKey, lookupKey, h2]
      · simp [insertKey, lookupKey, h2, h3, ih]

theorem lookupKey_eraseKey_self {α β : Type} [DecidableEq α] (k : α)
    (l : List (α × β)) : lookupKey k (eraseKey k l) = none := by
  induction l with
  | nil => simp [eraseKey, lookupKey]
  | cons p rest ih =>
    obtain ⟨k', v⟩ := p
    by_cases h : k' = k
    · simpa [eraseKey, h] using ih
    · simp [eraseKey, lookupKey, h, ih]

theorem lookupKey_eraseKey_ne {α β : Type} [DecidableEq α] {k' k : α}
    (l : List (α × β)) (h : k' ≠ k) :
    lookupKey k' (eraseKey k l) = lookupKey k' l := by
  induction l with
  | nil => simp [eraseKey]
  | cons p rest ih =>
    obtain ⟨k'', v⟩ := p
    by_cases h2 : k'' = k
    · subst h2
      have e1 : eraseKey k'' ((k'', v) :: rest) = eraseKey k'' rest := by
        simp [eraseKey]
      rw [e1, ih]
      simp [lookupKey, Ne.symm h]
    · simp [eraseKey, lookupKey, h2, ih]

theorem insertKey_eq_append {α β : Type} [DecidableEq α] {k : α} (v : β)
    {l : List (α × β)} (h : lookupKey k l = none) :
    insertKey k v l = l ++ [(k, v)] := by
  induction l with
  | nil => simp [insertKey]
  | cons p rest ih =>
    obtain ⟨k', v'⟩ := p
    by_cases h2 : k' = k
    · simp [lookupKey, h2] at h
    · simp [lookupKey, h2] at h
      simp [insertKey, h2, ih h]

theorem eraseKey_of_not_mem {α β : Type} [DecidableEq α] {k : α}
    {l : List (α × β)} (h : k ∉ l.map Prod.fst) : eraseKey k l = l := by
  induction l with
  | nil => rfl
  | cons p rest ih =>
    obtain ⟨k', v⟩ := p
    have h1 : k ≠ k' := fun hh => h (by simp [hh])
    have h2 : k ∉ rest.map Prod.fst := fun hh => h (by simp [hh])
    simp [eraseKey, Ne.symm h1, ih h2]

theorem lookupKey_mem {α β : Type} [DecidableEq α] {k : α} {v : β}
    {l : List (α × β)} (h : lookupKey k l = some v) : (k, v) ∈ l := by
  induction l with
  | nil => simp [lookupKey] at h
  | cons p rest ih =>
    obtain ⟨k', v'⟩ := p
    by_cases h2 : k' = k
    · subst h2
      simp [lookupKey] at h
      simp [h]
    · simp [lookupKey, h2] at h
      simp [ih h]

theorem lookupKey_mem_snd {α β : Type} [DecidableEq α] {k : α} {v : β}
    {l : List (α × β)} (h : lookupKey k l = some v) : v ∈ l.map Prod.snd := by
  have := lookupKey_mem h
  exact List.mem_map.mpr ⟨(k, v), this, rfl⟩

/-! ### Claim C1 — relay-loop handling of unknown envelope types -/

/-- A registered one-member room used for concrete counterexamples. -/
def sampleRoom : Room := ⟨[(1, "alice")], [("alice", "pk-alice")]⟩

/-- Claim C1 states that, in the Active state, an envelope whose type is
neither `chat` nor `clear` terminates the relay loop (transition to
Closed).  This is false of the code: the relay loop of `handleWS` has no
branch for other types, so such an envelope is silently skipped and the
loop reads the next one.  Concretely, an envelope of type `ping` yields
`deliver []` (continue, nothing sent), not `close`. -/
theorem c1_counterexample :
    ¬ (relayStep sampleRoom "room1" "alice"
        (some ⟨"ping", "alice", "", "", "x", ""⟩) = RelayAction.close) := by
  decide

/-- Amended C1: in the Active state an envelope whose type is neither
`chat` nor `clear` is silently ignored — the loop continues and nothing is
delivered; only a read/decode error terminates the loop (transition to
Closed). -/
theorem c1_unknown_type_ignored (room : Room) (roomID username : String)
    (msg : WSMessage) (h1 : msg.type ≠ "chat") (h2 : msg.type ≠ "clear") :
    relayStep room roomID username (some msg) = RelayAction.deliver [] ∧
    relayStep room roomID username none = RelayAction.close := by
  constructor
  · simp [relayStep, h1, h2]
  · rfl

/-- Witness for `c1_unknown_type_ignored` at a concrete input. -/
theorem c1_witness :
    relayStep sampleRoom "room1" "alice" (some ⟨"ping", "alice", "", "", "x", ""⟩) =
      RelayAction.deliver [] ∧
    relayStep sampleRoom "room1" "alice" none = RelayAction.close :=
  c1_unknown_type_ignored sampleRoom "room1" "alice" ⟨"ping", "alice", "", "", "x", ""⟩
    (by decide) (by decide)

/-! ### Claim C10 — silent drop of incomplete chat envelopes -/

/-- C10: in the Active state, a `chat` envelope with empty `Payload`, or
with non-empty `Payload` but empty `To`, is silently dropped: nothing is
delivered, the connection is not closed (`deliver []`, not `close`), and
the loop continues with the next read.  `relayStep` embeds the loop body,
which performs no room or registry mutation on this path. -/
theorem c10_chat_dropped (room : Room) (roomID username : String)
    (msg : WSMessage) (htype : msg.type = "chat")
    (h : msg.payload = "" ∨ msg.to_ = "") :
    relayStep room roomID username (some msg) = RelayAction.deliver [] := by
  rcases h with h | h
  · simp [relayStep, htype, h]
  · by_cases hp : msg.payload = ""
    · simp [relayStep, htype, hp]
    · simp [relayStep, htype, hp, h]

/-- Witness for `c10_chat_dropped`: empty payload, and empty `To` with a
non-empty payload. -/
theorem c10_witness :
    relayStep sampleRoom "room1" "alice" (some ⟨"chat", "", "bob", "", "", ""⟩) =
      RelayAction.deliver [] ∧
    relayStep sampleRoom "room1" "alice" (some ⟨"chat", "", "", "", "hello", ""⟩) =
      RelayAction.deliver [] :=
  ⟨c10_chat_dropped sampleRoom "room1" "alice" ⟨"chat", "", "bob", "", "", ""⟩
      (by decide) (Or.inl (by decide)),
   c10_chat_dropped sampleRoom "room1" "alice" ⟨"chat", "", "", "", "hello", ""⟩
      (by decide) (Or.inr (by decide))⟩

/-! ### Claim C3 — single-shot join handshake -/

/-- C3: the single first read of every new connection must be a `join`
envelope with non-empty `From`, `RoomID` and `PublicKey`.  Any other
type, a decode failure (`m = none`), or a missing required field makes
`handleWS` return at once: `handleJoin` yields `closed`, the outcome that
performs no registry or room mutation, broadcasts no announcement, and
adds the connection to no room (in the code, the guard precedes every
assignment to `room`, `username` and `roomID`, so the deferred cleanup is
a no-op as well). -/
theorem c3_handshake_strict (s : ServerState) (conn : Conn) (m : Option WSMessage)
    (h : handshakeOK m = false) :
    handleJoin s conn m = JoinOutcome.closed := by
  simp [handleJoin, h]

/-- Witness for `c3_handshake_strict`: a first envelope of type `chat` is
rejected without joining any room. -/
theorem c3_witness :
    handleJoin ⟨[], [], 0⟩ 1 (some ⟨"chat", "alice", "bob", "room1", "hi", "pk"⟩) =
      JoinOutcome.closed :=
  c3_handshake_strict ⟨[], [], 0⟩ 1 (some ⟨"chat", "alice", "bob", "room1", "hi", "pk"⟩)
    (by decide)

/-! ### Claim C2 — cleanup can delete a recreated room's registry entry

The following concrete trace is a legal interleaving of the embedded
critical sections: each step below is one lock-protected section of the
Go code executed atomically, the steps of each connection appear in its
program order, and no two sections of the same lock overlap.  Connection
1 creates room `lobby` (allocating Room instance `0`) and disconnects;
while its cleanup holds the room lock, connection 2 has already resolved
`lobby` to instance `0` under the registry lock and is blocked on the
room lock, so it registers into instance `0` after the cleanup has
already deleted the registry entry.  Connection 3 then recreates `lobby`
as a fresh instance `1`.  When connection 2 disconnects, its cleanup
empties instance `0` and deletes the registry entry for `lobby` — the
entry that now belongs to instance `1`, which still has a member. -/

/-- Step 1: connection 1 resolves `lobby`, creating Room instance `0`. -/
def raceA : ServerState × RoomRef := resolveOrCreate ⟨[], [], 0⟩ "lobby"

/-- Step 2: connection 1 registers as `u1` in instance `0`. -/
def raceB : ServerState × Bool := registerConn raceA.1 raceA.2 1 "u1" "k1"

/-- Step 3: connection 2 resolves `lobby` — still instance `0`. -/
def raceC : ServerState × RoomRef := resolveOrCreate raceB.1 "lobby"

/-- Step 4: connection 1's deferred cleanup — instance `0` becomes empty
and the registry entry for `lobby` is deleted. -/
def raceD : ServerState × List (Conn × WSMessage) := cleanupConn raceC.1 0 "lobby" 1 "u1"

/-- Step 5: connection 2 registers as `u2` into the orphaned instance `0`. -/
def raceE : ServerState × Bool := registerConn raceD.1 0 2 "u2" "k2"

/-- Step 6: connection 3 resolves `lobby` — absent, so a fresh instance
`1` is created and registered. -/
def raceF : ServerState × RoomRef := resolveOrCreate raceE.1 "lobby"

/-- Step 7: connection 3 registers as `u3` in instance `1`. -/
def raceG : ServerState × Bool := registerConn raceF.1 raceF.2 3 "u3" "k3"

/-- Step 8: connection 2's deferred cleanup of instance `0`. -/
def raceH : ServerState × List (Conn × WSMessage) := cleanupConn raceG.1 0 "lobby" 2 "u2"

/-- Claim C2 states the cleanup path removes the registry entry for a room
id only if the cleaned-up room is still the currently registered Room for
that id, and never removes a freshly recreated Room instance's entry.
This is false of the code: the deferred cleanup in `handleWS` executes
`delete(rooms, roomID)` whenever its own room became empty, without
comparing `rooms[roomID]` to `room`.  In the trace above, before the final
cleanup the registry maps `lobby` to instance `1` (not the cleaned-up
instance `0`), instance `1` still has a member, and the cleanup of
instance `0` still deletes the `lobby` entry. -/
theorem c2_counterexample :
    lookupKey "lobby" raceG.1.registry = some 1 ∧
    (getRoom raceG.1 1).clients = [(3, "u3")] ∧
    lookupKey 2 (getRoom raceG.1 0).clients = some "u2" ∧
    lookupKey "lobby" raceH.1.registry = none ∧
    (getRoom raceH.1 1).clients = [(3, "u3")] := by
  decide

/-- Amended C2: when the cleaned-up connection is still in its room's
`clients` map, the cleanup deletes the registry entry for the room id
exactly when that room's member count reaches zero — with no check that
the room is still the currently registered instance for that id (so a
freshly recreated Room's entry can be removed, as `c2_counterexample`
shows); when the connection is absent from the room, nothing changes. -/
theorem c2_cleanup_removes_iff_empty (s : ServerState) (ref : RoomRef)
    (roomID : String) (conn : Conn) (username : String) :
    (cleanupConn s ref roomID conn username).1.registry =
      (if lookupKey conn (getRoom s ref).clients ≠ none ∧
          (eraseKey conn (getRoom s ref).clients).length = 0 then
        eraseKey roomID s.registry
      else s.registry) := by
  rcases h : lookupKey conn (getRoom s ref).clients with _ | v
  · simp [cleanupConn, h]
  · by_cases h2 : (eraseKey conn (getRoom s ref).clients).length = 0
    · simp [cleanupConn, h, h2]
    · simp [cleanupConn, h, h2]

/-! ### Delivery-list lemmas for `broadcast` -/

theorem filter_ne_all {l : List (Conn × String)} {ex : Conn}
    (h : ex ∉ l.map Prod.fst) :
    l.filter (fun p => some p.1 ≠ some ex) = l := by
  rw [List.filter_eq_self]
  intro p hp
  simp only [decide_eq_true_eq, Ne, Option.some.injEq]
  exact fun hh => h (List.mem_map.mpr ⟨p, hp, hh⟩)

theorem filter_ne_length {l : List (Conn × String)} {ex : Conn} {name : String}
    (hk : (l.map Prod.fst).Nodup) (hm : (ex, name) ∈ l) :
    (l.filter (fun p => some p.1 ≠ some ex)).length = l.length - 1 := by
  induction l with
  | nil => simp at hm
  | cons p rest ih =>
    obtain ⟨c, n⟩ := p
    simp only [List.map_cons, List.nodup_cons] at hk
    rcases List.mem_cons.mp hm with h | h
    · have hc : ex = c := congrArg Prod.fst h
      subst hc
      rw [List.filter_cons_of_neg (by simp)]
      rw [filter_ne_all hk.1]
      simp
    · have hex : ex ∈ rest.map Prod.fst :=
        List.mem_map.mpr ⟨(ex, name), h, rfl⟩
      have hcne : c ≠ ex := fun hh => hk.1 (hh ▸ hex)
      have hlen : 1 ≤ rest.length := by
        cases rest with
        | nil => simp at h
        | cons q t => simp
      rw [List.filter_cons_of_pos (by simp [hcne])]
      rw [List.length_cons, List.length_cons, ih hk.2 h]
      omega

theorem deliveries_none_of_not_mem {l : List (Conn × String)} {c : Conn}
    (h : c ∉ l.map Prod.fst) (q : Conn × String → Bool) (msg : WSMessage) :
    ((l.filter q).map (fun p => (p.1, msg))).filter (fun d => d.1 = c) = [] := by
  rw [List.filter_eq_nil_iff]
  intro d hd
  obtain ⟨p, hp, hpd⟩ := List.mem_map.mp hd
  have hpl : p ∈ l := (List.mem_filter.mp hp).1
  have : p.1 ≠ c := fun hh => h (List.mem_map.mpr ⟨p, hpl, hh⟩)
  subst hpd
  simpa using this

theorem deliveries_once {l : List (Conn × String)} {ex c : Conn} {name : String}
    (hk : (l.map Prod.fst).Nodup) (hm : (c, name) ∈ l) (hne : c ≠ ex)
    (msg : WSMessage) :
    ((l.filter (fun p => some p.1 ≠ some ex)).map (fun p => (p.1, msg))).filter
      (fun d => d.1 = c) = [(c, msg)] := by
  induction l with
  | nil => simp at hm
  | cons p rest ih =>
    obtain ⟨c', n⟩ := p
    simp only [List.map_cons, List.nodup_cons] at hk
    by_cases hcc : c' = c
    · subst hcc
      rw [List.filter_cons_of_pos (by simp [hne])]
      rw [List.map_cons, List.filter_cons_of_pos (by simp)]
      rw [deliveries_none_of_not_mem hk.1 _ msg]
    · have hrest : (c, name) ∈ rest := by
        rcases List.mem_cons.mp hm with h | h
        · exact absurd (congrArg Prod.fst h).symm hcc
        · exact h
      by_cases hce : c' = ex
      · rw [List.filter_cons_of_neg (by simp [hce])]
        exact ih hk.2 hrest
      · rw [List.filter_cons_of_pos (by simp [hce])]
        rw [List.map_cons, List.filter_cons_of_neg (by simp [hcc])]
        exact ih hk.2 hrest

theorem deliveries_excluded_none (l : List (Conn × String)) (ex : Conn)
    (msg : WSMessage) :
    ((l.filter (fun p => some p.1 ≠ some ex)).map (fun p => (p.1, msg))).filter
      (fun d => d.1 = ex) = [] := by
  rw [List.filter_eq_nil_iff]
  intro d hd
  obtain ⟨p, hp, hpd⟩ := List.mem_map.mp hd
  have : some p.1 ≠ some ex := by
    have := (List.mem_filter.mp hp).2
    simpa using this
  subst hpd
  simp only [decide_eq_true_eq]
  exact fun hh => this (by simp [hh])

/-! ### Claim C6 — broadcast delivers to all members but the excluded one -/

/-- C6: `broadcast` on a room of `N` members with one excluded member
connection delivers the envelope to exactly the `N − 1` members other
than the excluded connection — each such member appears exactly once in
the delivery list, and the excluded connection not at all — and
`broadcast` on a nil room or on a room with no members delivers nothing
and is not an error. -/
theorem c6_broadcast_exclusion (r : Room) (ex : Conn) (name : String)
    (msg : WSMessage) (hk : (r.clients.map Prod.fst).Nodup)
    (hm : (ex, name) ∈ r.clients) :
    (broadcast (some r) (some ex) msg).length = r.clients.length - 1 ∧
    (∀ c name', (c, name') ∈ r.clients → c ≠ ex →
      (broadcast (some r) (some ex) msg).filter (fun d => d.1 = c) = [(c, msg)]) ∧
    (broadcast (some r) (some ex) msg).filter (fun d => d.1 = ex) = [] ∧
    broadcast none (some ex) msg = [] ∧
    (∀ r' : Room, r'.clients = [] → broadcast (some r') (some ex) msg = []) := by
  refine ⟨?_, ?_, ?_, rfl, ?_⟩
  · show ((r.clients.filter _).map _).length = _
    rw [List.length_map]
    exact filter_ne_length hk hm
  · intro c name' hc hne
    exact deliveries_once hk hc hne msg
  · exact deliveries_excluded_none r.clients ex msg
  · intro r' h
    simp [broadcast, h]

/-- Witness for `c6_broadcast_exclusion`: a room with `alice`, `bob` and
`carol`; broadcasting excluding `alice`'s connection delivers to exactly
`bob` and `carol`, once each. -/
theorem c6_witness :
    (broadcast (some ⟨[(1, "alice"), (2, "bob"), (3, "carol")], []⟩) (some 1)
      (leaveMsg "x")).length = 2 ∧
    (broadcast (some ⟨[(1, "alice"), (2, "bob"), (3, "carol")], []⟩) (some 1)
      (leaveMsg "x")).filter (fun d => d.1 = 2) = [(2, leaveMsg "x")] := by
  have h := c6_broadcast_exclusion ⟨[(1, "alice"), (2, "bob"), (3, "carol")], []⟩
    1 "alice" (leaveMsg "x") (by decide) (by decide)
  exact ⟨h.1, h.2.1 2 "bob" (by decide) (by decide)⟩

/-! ### `findConn` lemmas for Direct-Send -/

theorem findConn_eq_none_of_not_mem {l : List (Conn × String)} {u : String}
    (h : u ∉ l.map Prod.snd) : findConn l u = none := by
  induction l with
  | nil => rfl
  | cons p rest ih =>
    obtain ⟨c, n⟩ := p
    have h1 : u ≠ n := fun hh => h (by simp [hh])
    have h2 : u ∉ rest.map Prod.snd := fun hh => h (by simp [hh])
    simp [findConn, Ne.symm h1, ih h2]

theorem findConn_eq_some_of_mem {l : List (Conn × String)} {c : Conn} {u : String}
    (hv : (l.map Prod.snd).Nodup) (hm : (c, u) ∈ l) : findConn l u = some c := by
  induction l with
  | nil => simp at hm
  | cons p rest ih =>
    obtain ⟨c', n⟩ := p
    simp only [List.map_cons, List.nodup_cons] at hv
    by_cases hn : n = u
    · subst hn
      rcases List.mem_cons.mp hm with h | h
      · have hcc : c = c' := congrArg Prod.fst h
        simp [findConn, hcc]
      · exact absurd (List.mem_map.mpr ⟨(c, n), h, rfl⟩) hv.1
    · have hrest : (c, u) ∈ rest := by
        rcases List.mem_cons.mp hm with h | h
        · exact absurd (congrArg Prod.snd h).symm hn
        · exact h
      simp [findConn, hn, ih hv.2 hrest]

/-! ### Claim C7 — direct chat routing with rewritten sender -/

/-- C7: for a registered connection with authenticated username
`username`, an inbound `chat` envelope with non-empty `Payload` and
non-empty `To` is routed via `sendToUser` with the outgoing `From` field
set to `username` — the inbound `From` field never appears in the
outgoing envelope; the delivery goes only to the connection currently
mapped to `To` in the same room's `clients` map (exactly one delivery),
and when `To` is not a member of the room nothing is delivered — a silent
no-op (the loop body mutates no room or registry state on this path). -/
theorem c7_chat_routing (room : Room) (roomID username : String)
    (msg : WSMessage) (ht : msg.type = "chat") (hp : msg.payload ≠ "")
    (hto : msg.to_ ≠ "") (hv : (room.clients.map Prod.snd).Nodup) :
    relayStep room roomID username (some msg) =
      RelayAction.deliver
        (sendToUser (some room) msg.to_ ⟨"chat", username, "", roomID, msg.payload, ""⟩) ∧
    (∀ c : Conn, (c, msg.to_) ∈ room.clients →
      sendToUser (some room) msg.to_ ⟨"chat", username, "", roomID, msg.payload, ""⟩ =
        [(c, ⟨"chat", username, "", roomID, msg.payload, ""⟩)]) ∧
    (msg.to_ ∉ room.clients.map Prod.snd →
      sendToUser (some room) msg.to_ ⟨"chat", username, "", roomID, msg.payload, ""⟩ = []) := by
  refine ⟨?_, ?_, ?_⟩
  · simp [relayStep, ht, hp, hto]
  · intro c hc
    simp [sendToUser, findConn_eq_some_of_mem hv hc]
  · intro h
    simp [sendToUser, findConn_eq_none_of_not_mem h]

/-- Witness for `c7_chat_routing`: in a room with `alice` and `bob`,
`alice`'s chat to `bob` (with a forged inbound `From` of `mallory`) is
delivered only to `bob`'s connection with `From` rewritten to `alice`,
and a chat to absent `carol` delivers nothing. -/
theorem c7_witness :
    relayStep ⟨[(1, "alice"), (2, "bob")], [("alice", "ka"), ("bob", "kb")]⟩
      "room1" "alice" (some ⟨"chat", "mallory", "bob", "", "hi", ""⟩) =
      RelayAction.deliver
        (sendToUser (some ⟨[(1, "alice"), (2, "bob")], [("alice", "ka"), ("bob", "kb")]⟩)
          "bob" ⟨"chat", "alice", "", "room1", "hi", ""⟩) ∧
    sendToUser (some ⟨[(1, "alice"), (2, "bob")], [("alice", "ka"), ("bob", "kb")]⟩)
      "bob" ⟨"chat", "alice", "", "room1", "hi", ""⟩ =
      [(2, ⟨"chat", "alice", "", "room1", "hi", ""⟩)] := by
  have h := c7_chat_routing ⟨[(1, "alice"), (2, "bob")], [("alice", "ka"), ("bob", "kb")]⟩
    "room1" "alice" ⟨"chat", "mallory", "bob", "", "hi", ""⟩
    (by decide) (by decide) (by decide) (by decide)
  exact ⟨h.1, h.2.1 2 (by decide)⟩

/-! ### Claim C8 — last-leaver room deletion and fresh recreation -/

/-- C8: when the sole member of a room disconnects, the cleanup removes
the room's entry from the registry, so the id no longer resolves; a
subsequent join resolving the same id then allocates a fresh empty Room
with no members and no leftover public keys. -/
theorem c8_room_cleanup (s : ServerState) (ref : RoomRef) (roomID : String)
    (conn : Conn) (username : String) (pks : List (String × String))
    (h : getRoom s ref = ⟨[(conn, username)], pks⟩) :
    lookupKey roomID (cleanupConn s ref roomID conn username).1.registry = none ∧
    getRoom (resolveOrCreate (cleanupConn s ref roomID conn username).1 roomID).1
      (resolveOrCreate (cleanupConn s ref roomID conn username).1 roomID).2 =
      Room.empty := by
  have hstep : (cleanupConn s ref roomID conn username).1.registry =
      eraseKey roomID s.registry := by
    simp [cleanupConn, h, lookupKey, eraseKey]
  have h1 : lookupKey roomID (cleanupConn s ref roomID conn username).1.registry = none := by
    rw [hstep]
    exact lookupKey_eraseKey_self roomID s.registry
  exact ⟨h1, by simp [resolveOrCreate, h1, getRoom, lookupKey_insertKey_self]⟩

/-- Witness for `c8_room_cleanup`: a registry with one room containing
only `alice`; her disconnect deletes the entry and a rejoin gets a fresh
empty room. -/
theorem c8_witness :
    lookupKey "room1"
      (cleanupConn ⟨[("room1", 0)], [(0, ⟨[(1, "alice")], [("alice", "pk")]⟩)], 1⟩
        0 "room1" 1 "alice").1.registry = none ∧
    getRoom (resolveOrCreate
        (cleanupConn ⟨[("room1", 0)], [(0, ⟨[(1, "alice")], [("alice", "pk")]⟩)], 1⟩
          0 "room1" 1 "alice").1 "room1").1
      (resolveOrCreate
        (cleanupConn ⟨[("room1", 0)], [(0, ⟨[(1, "alice")], [("alice", "pk")]⟩)], 1⟩
          0 "room1" 1 "alice").1 "room1").2 = Room.empty :=
  c8_room_cleanup ⟨[("room1", 0)], [(0, ⟨[(1, "alice")], [("alice", "pk")]⟩)], 1⟩
    0 "room1" 1 "alice" [("alice", "pk")] (by decide)

/-! ### Room invariants I1 (unique usernames) and I2 (map consistency) -/

/-- The usernames currently registered in a room: the values of the
`clients` map. -/
def usernames (r : Room) : List String := r.clients.map Prod.snd

/-- The usernames holding a stored public key: the keys of the
`publicKeys` map. -/
def pkNames (r : Room) : List String := r.publicKeys.map Prod.fst

/-- Invariant I1: no duplicate username among the values of `clients`. -/
def noDupUsernames (r : Room) : Prop := (usernames r).Nodup

/-- Invariant I2: a username has a stored public key iff it is registered
as a value of `clients`. -/
def roomI2 (r : Room) : Prop := ∀ u, u ∈ pkNames r ↔ u ∈ usernames r

/-- The well-formedness a room enjoys in every reachable execution:
`clients` is a map (no duplicate connection keys), I1 and I2. -/
def roomWF (r : Room) : Prop :=
  (r.clients.map Prod.fst).Nodup ∧ noDupUsernames r ∧ roomI2 r

/-- Every room in the heap is well-formed. -/
def heapWF (s : ServerState) : Prop :=
  ∀ ref room, lookupKey ref s.heap = some room → roomWF room

theorem roomWF_empty : roomWF Room.empty := by
  refine ⟨List.nodup_nil, List.nodup_nil, fun u => ?_⟩
  simp [pkNames, usernames, Room.empty]

theorem getRoom_wf {s : ServerState} (hall : heapWF s) (ref : RoomRef) :
    roomWF (getRoom s ref) := by
  rcases h : lookupKey ref s.heap with _ | room
  · simp [getRoom, h, roomWF_empty]
  · simpa [getRoom, h] using hall ref room h

theorem eraseKey_sublist {α β : Type} [DecidableEq α] (k : α) (l : List (α × β)) :
    (eraseKey k l).Sublist l := by
  induction l with
  | nil => simp [eraseKey]
  | cons p rest ih =>
    obtain ⟨k', v⟩ := p
    by_cases h : k' = k
    · simp only [eraseKey, if_pos h]
      exact ih.cons (k', v)
    · simp only [eraseKey, if_neg h]
      exact ih.cons₂ (k', v)

theorem mem_map_fst_eraseKey {α β : Type} [DecidableEq α] {x k : α}
    (l : List (α × β)) :
    x ∈ (eraseKey k l).map Prod.fst ↔ x ∈ l.map Prod.fst ∧ x ≠ k := by
  induction l with
  | nil => simp [eraseKey]
  | cons p rest ih =>
    obtain ⟨k', v⟩ := p
    by_cases h : k' = k
    · rw [show eraseKey k ((k', v) :: rest) = eraseKey k rest from by simp [eraseKey, h]]
      rw [ih]
      simp only [List.map_cons, List.mem_cons]
      constructor
      · rintro ⟨h1, h2⟩
        exact ⟨Or.inr h1, h2⟩
      · rintro ⟨h1 | h1, h2⟩
        · exact absurd (h ▸ h1) h2
        · exact ⟨h1, h2⟩
    · rw [show eraseKey k ((k', v) :: rest) = (k', v) :: eraseKey k rest from by
        simp [eraseKey, h]]
      simp only [List.map_cons, List.mem_cons, ih]
      constructor
      · rintro (h1 | ⟨h1, h2⟩)
        · exact ⟨Or.inl h1, fun hh => h (h1 ▸ hh)⟩
        · exact ⟨Or.inr h1, h2⟩
      · rintro ⟨h1 | h1, h2⟩
        · exact Or.inl h1
        · exact Or.inr ⟨h1, h2⟩

theorem mem_map_snd_eraseKey {l : List (Conn × String)} {conn : Conn}
    {username : String} (hk : (l.map Prod.fst).Nodup)
    (hv : (l.map Prod.snd).Nodup) (hc : lookupKey conn l = some username) :
    ∀ u, u ∈ (eraseKey conn l).map Prod.snd ↔
      (u ∈ l.map Prod.snd ∧ u ≠ username) := by
  induction l with
  | nil => simp [lookupKey] at hc
  | cons p rest ih =>
    obtain ⟨c, n⟩ := p
    simp only [List.map_cons, List.nodup_cons] at hk hv
    intro u
    by_cases h : c = conn
    · have hcn : lookupKey conn ((c, n) :: rest) = some n := by simp [lookupKey, h]
      rw [hcn] at hc
      have hn : n = username := Option.some.inj hc
      subst hn
      rw [show eraseKey conn ((c, n) :: rest) = eraseKey conn rest from by
        simp [eraseKey, h]]
      rw [eraseKey_of_not_mem (h ▸ hk.1)]
      simp only [List.map_cons, List.mem_cons]
      constructor
      · intro h1
        have hun : u ≠ n := fun hh => hv.1 (hh ▸ h1)
        exact ⟨Or.inr h1, hun⟩
      · rintro ⟨h1 | h1, h2⟩
        · exact absurd h1 h2
        · exact h1
    · rw [show eraseKey conn ((c, n) :: rest) = (c, n) :: eraseKey conn rest by
        simp [eraseKey, h]]
      simp only [lookupKey, if_neg h] at hc
      have hnn : n ≠ username := by
        have : username ∈ rest.map Prod.snd := lookupKey_mem_snd hc
        exact fun hh => hv.1 (hh ▸ this)
      simp only [List.map_cons, List.mem_cons, ih hk.2 hv.2 hc]
      constructor
      · rintro (h1 | ⟨h1, h2⟩)
        · exact ⟨Or.inl h1, h1 ▸ hnn⟩
        · exact ⟨Or.inr h1, h2⟩
      · rintro ⟨h1 | h1, h2⟩
        · exact Or.inl h1
        · exact Or.inr ⟨h1, h2⟩

/-- Registration preserves room well-formedness: the registered room gains
`conn ↦ username` and `username ↦ pubKey`, and for a fresh connection and
free username (the success branch of the code's collision check) the three
invariants survive. -/
theorem roomWF_insert {room : Room} {conn : Conn} {username pubKey : String}
    (hwf : roomWF room) (hfresh : lookupKey conn room.clients = none)
    (hufree : lookupKey username room.publicKeys = none) :
    roomWF ⟨insertKey conn username room.clients,
            insertKey username pubKey room.publicKeys⟩ := by
  obtain ⟨hk, hv, hi2⟩ := hwf
  have hc : conn ∉ room.clients.map Prod.fst :=
    (lookupKey_eq_none_iff conn room.clients).mp hfresh
  have hu : username ∉ pkNames room :=
    (lookupKey_eq_none_iff username room.publicKeys).mp hufree
  have huv : username ∉ usernames room := fun hh => hu ((hi2 username).mpr hh)
  have e1 : insertKey conn username room.clients =
      room.clients ++ [(conn, username)] := insertKey_eq_append username hfresh
  have e2 : insertKey username pubKey room.publicKeys =
      room.publicKeys ++ [(username, pubKey)] := insertKey_eq_append pubKey hufree
  refine ⟨?_, ?_, ?_⟩
  · simp only [e1, List.map_append, List.map_cons, List.map_nil]
    simp [List.nodup_append, hk, hc]
  · show ((insertKey conn username room.clients).map Prod.snd).Nodup
    rw [e1, List.map_append]
    simp only [List.map_cons, List.map_nil]
    rw [List.nodup_append]
    refine ⟨hv, List.nodup_singleton _, ?_⟩
    intro a ha hb
    simp only [List.mem_singleton] at hb
    subst hb
    exact huv ha
  · intro u
    simp only [pkNames, usernames, e1, e2, List.map_append, List.map_cons,
      List.map_nil, List.mem_append, List.mem_cons]
    constructor
    · rintro (h | h)
      · exact Or.inl ((hi2 u).mp h)
      · exact Or.inr h
    · rintro (h | h)
      · exact Or.inl ((hi2 u).mpr h)
      · exact Or.inr h

/-- Deregistration preserves room well-formedness: removing `conn` from
`clients` and its username from `publicKeys` (the non-trivial branch of
the deferred cleanup) keeps the three invariants, provided `username` is
the name the room maps `conn` to — which the relay engine guarantees,
since it passes the username it registered. -/
theorem roomWF_erase {room : Room} {conn : Conn} {username : String}
    (hwf : roomWF room) (hconn : lookupKey conn room.clients = some username) :
    roomWF ⟨eraseKey conn room.clients, eraseKey username room.publicKeys⟩ := by
  obtain ⟨hk, hv, hi2⟩ := hwf
  refine ⟨?_, ?_, ?_⟩
  · exact List.Nodup.sublist ((eraseKey_sublist conn room.clients).map Prod.fst) hk
  · exact List.Nodup.sublist ((eraseKey_sublist conn room.clients).map Prod.snd) hv
  · intro u
    show u ∈ (eraseKey username room.publicKeys).map Prod.fst ↔
      u ∈ (eraseKey conn room.clients).map Prod.snd
    rw [mem_map_fst_eraseKey, mem_map_snd_eraseKey hk hv hconn]
    exact and_congr_left (fun _ => hi2 u)

/-- The success branch of registration rewrites the heap at `ref` only. -/
theorem registerConn_heap_eq {s : ServerState} {ref : RoomRef} {conn : Conn}
    {username pubKey : String}
    (hpk : lookupKey username (getRoom s ref).publicKeys = none) :
    (registerConn s ref conn username pubKey).1.heap =
      insertKey ref
        ⟨insertKey conn username (getRoom s ref).clients,
         insertKey username pubKey (getRoom s ref).publicKeys⟩ s.heap ∧
    (registerConn s ref conn username pubKey).2 = true := by
  constructor <;> simp [registerConn, hpk]

/-- Registration preserves well-formedness of every room in the heap, for
a fresh connection. -/
theorem registerConn_preserves_wf {s : ServerState} {ref : RoomRef} {conn : Conn}
    {username pubKey : String} (hall : heapWF s)
    (hfresh : lookupKey conn (getRoom s ref).clients = none) :
    heapWF (registerConn s ref conn username pubKey).1 := by
  rcases hpk : lookupKey username (getRoom s ref).publicKeys with _ | pk0
  · intro r' room' hr'
    rw [(registerConn_heap_eq hpk).1] at hr'
    by_cases h : r' = ref
    · subst h
      rw [lookupKey_insertKey_self] at hr'
      cases hr'
      exact roomWF_insert (getRoom_wf hall r') hfresh hpk
    · rw [lookupKey_insertKey_ne _ _ h] at hr'
      exact hall r' room' hr'
  · have : (registerConn s ref conn username pubKey).1 = s := by
      simp [registerConn, hpk]
    rw [this]
    exact hall

/-- Cleanup preserves well-formedness of every room in the heap, when the
username it removes is the one the room maps the connection to (or the
connection is already gone). -/
theorem cleanupConn_preserves_wf {s : ServerState} {ref : RoomRef}
    {roomID : String} {conn : Conn} {username : String} (hall : heapWF s)
    (hconn : lookupKey conn (getRoom s ref).clients = none ∨
      lookupKey conn (getRoom s ref).clients = some username) :
    heapWF (cleanupConn s ref roomID conn username).1 := by
  rcases hlc : lookupKey conn (getRoom s ref).clients with _ | v
  · have : (cleanupConn s ref roomID conn username).1 = s := by
      simp [cleanupConn, hlc]
    rw [this]
    exact hall
  · have hv : v = username := by
      rcases hconn with h | h
      · rw [hlc] at h
        cases h
      · rw [hlc] at h
        exact Option.some.inj h
    subst hv
    intro r' room' hr'
    have hheap : (cleanupConn s ref roomID conn v).1.heap =
        insertKey ref
          ⟨eraseKey conn (getRoom s ref).clients,
           eraseKey v (getRoom s ref).publicKeys⟩ s.heap := by
      by_cases h0 : (eraseKey conn (getRoom s ref).clients).length = 0
      · simp [cleanupConn, hlc, h0]
      · simp [cleanupConn, hlc, h0]
    rw [hheap] at hr'
    by_cases h : r' = ref
    · subst h
      rw [lookupKey_insertKey_self] at hr'
      cases hr'
      exact roomWF_erase (getRoom_wf hall r') hlc
    · rw [lookupKey_insertKey_ne _ _ h] at hr'
      exact hall r' room' hr'

/-- Room creation preserves well-formedness of every room in the heap:
the fresh room is empty and the rest are untouched. -/
theorem resolveOrCreate_preserves_wf {s : ServerState} {roomID : String}
    (hall : heapWF s) : heapWF (resolveOrCreate s roomID).1 := by
  rcases hreg : lookupKey roomID s.registry with _ | ref0
  · intro r' room' hr'
    have : (resolveOrCreate s roomID).1.heap =
        insertKey s.nextRef Room.empty s.heap := by
      simp [resolveOrCreate, hreg]
    rw [this] at hr'
    by_cases h : r' = s.nextRef
    · subst h
      rw [lookupKey_insertKey_self] at hr'
      cases hr'
      exact roomWF_empty
    · rw [lookupKey_insertKey_ne _ _ h] at hr'
      exact hall r' room' hr'
  · have : (resolveOrCreate s roomID).1 = s := by
      simp [resolveOrCreate, hreg]
    rw [this]
    exact hall

/-! ### Claim C4 — per-room username uniqueness -/

/-- C4: username uniqueness is enforced per room, not globally.
(1) Registration of a fresh connection preserves invariant I1 — no
duplicate username among the values of any room's `clients` map.
(2) A join whose username already holds a public key in the target room
mutates nothing (`(s, false)`), so the first holder stays registered.
(3) At the `handleWS` level such a join yields the collision error
`Username taken in this room`.
(4) Two joins with the same username into two different rooms both
succeed. -/
theorem c4_username_uniqueness :
    (∀ (s : ServerState) (ref : RoomRef) (conn : Conn) (u k : String),
      heapWF s → lookupKey conn (getRoom s ref).clients = none →
      ∀ r' room', lookupKey r' (registerConn s ref conn u k).1.heap = some room' →
        noDupUsernames room') ∧
    (∀ (s : ServerState) (ref : RoomRef) (conn : Conn) (u k pk0 : String),
      lookupKey u (getRoom s ref).publicKeys = some pk0 →
      registerConn s ref conn u k = (s, false)) ∧
    (∀ (s : ServerState) (conn : Conn) (j : WSMessage) (pk0 : String),
      handshakeOK (some j) = true →
      lookupKey j.from_ (getRoom (resolveOrCreate s j.roomId).1
        (resolveOrCreate s j.roomId).2).publicKeys = some pk0 →
      handleJoin s conn (some j) = JoinOutcome.rejected "Username taken in this room") ∧
    (∀ (s : ServerState) (ref1 ref2 : RoomRef) (conn1 conn2 : Conn) (u k1 k2 : String),
      ref1 ≠ ref2 →
      lookupKey u (getRoom s ref1).publicKeys = none →
      lookupKey u (getRoom s ref2).publicKeys = none →
      (registerConn s ref1 conn1 u k1).2 = true ∧
      (registerConn (registerConn s ref1 conn1 u k1).1 ref2 conn2 u k2).2 = true) := by
  refine ⟨?_, ?_, ?_, ?_⟩
  · intro s ref conn u k hall hfresh r' room' hr'
    exact (registerConn_preserves_wf hall hfresh r' room' hr').2.1
  · intro s ref conn u k pk0 h
    simp [registerConn, h]
  · intro s conn j pk0 hok hpk
    have hreg : registerConn (resolveOrCreate s j.roomId).1
        (resolveOrCreate s j.roomId).2 conn j.from_ j.publicKey =
        ((resolveOrCreate s j.roomId).1, false) := by
      simp [registerConn, hpk]
    simp [handleJoin, hok, hreg]
  · intro s ref1 ref2 conn1 conn2 u k1 k2 hne h1 h2
    have e : getRoom (registerConn s ref1 conn1 u k1).1 ref2 = getRoom s ref2 := by
      simp only [getRoom]
      rw [(registerConn_heap_eq h1).1, lookupKey_insertKey_ne _ _ (Ne.symm hne)]
    refine ⟨(registerConn_heap_eq h1).2, ?_⟩
    have h2' : lookupKey u
        (getRoom (registerConn s ref1 conn1 u k1).1 ref2).publicKeys = none := by
      rw [e]
      exact h2
    exact (registerConn_heap_eq h2').2

/-- Concrete base state for the C4 witness: rooms `A` (instance `0`) and
`B` (instance `1`), both empty. -/
def c4s0 : ServerState := ⟨[("A", 0), ("B", 1)], [(0, Room.empty), (1, Room.empty)], 2⟩

/-- The state after `alice` (connection 1) joined room `A` in `c4s0`. -/
def c4s1 : ServerState := (registerConn c4s0 0 1 "alice" "ka").1

/-- Witness for `c4_username_uniqueness`: `alice` joins room `A`; a second
`alice` in room `A` is rejected without mutation, while `alice` in room
`B` succeeds. -/
theorem c4_witness :
    noDupUsernames ⟨[(1, "alice")], [("alice", "ka")]⟩ ∧
    registerConn c4s1 0 2 "alice" "k2" = (c4s1, false) ∧
    handleJoin c4s1 2 (some ⟨"join", "alice", "", "A", "", "k2"⟩) =
      JoinOutcome.rejected "Username taken in this room" ∧
    ((registerConn c4s0 0 1 "alice" "ka").2 = true ∧
      (registerConn (registerConn c4s0 0 1 "alice" "ka").1 1 2 "alice" "kb").2 = true) := by
  have hall : heapWF c4s0 := by
    intro ref room h
    have hm := lookupKey_mem h
    simp only [c4s0, List.mem_cons, List.not_mem_nil, or_false, Prod.mk.injEq] at hm
    rcases hm with ⟨_, h2⟩ | ⟨_, h2⟩ <;> (subst h2; exact roomWF_empty)
  refine ⟨?_, ?_, ?_, ?_⟩
  · exact c4_username_uniqueness.1 c4s0 0 1 "alice" "ka" hall (by decide) 0
      ⟨[(1, "alice")], [("alice", "ka")]⟩ (by decide)
  · exact c4_username_uniqueness.2.1 c4s1 0 2 "alice" "k2" "ka" (by decide)
  · exact c4_username_uniqueness.2.2.1 c4s1 2 ⟨"join", "alice", "", "A", "", "k2"⟩
      "ka" (by decide) (by decide)
  · exact c4_username_uniqueness.2.2.2 c4s0 0 1 1 2 "alice" "ka" "kb"
      (by decide) (by decide) (by decide)

/-! ### Claim C9 — invariant I2 holds and is preserved -/

/-- C9: a username is a key of a room's `publicKeys` iff it is a value of
its `clients` map: I2 holds of the empty room every join creates, and is
preserved by every operation — room creation, registration of a fresh
connection, collision rejection (which mutates nothing), and cleanup
(which removes the username the room maps the connection to). -/
theorem c9_i2_preserved :
    roomI2 Room.empty ∧
    (∀ (s : ServerState) (ref : RoomRef) (conn : Conn) (u k : String),
      heapWF s → lookupKey conn (getRoom s ref).clients = none →
      ∀ r' room', lookupKey r' (registerConn s ref conn u k).1.heap = some room' →
        roomI2 room') ∧
    (∀ (s : ServerState) (ref : RoomRef) (roomID : String) (conn : Conn)
      (username : String),
      heapWF s →
      (lookupKey conn (getRoom s ref).clients = none ∨
        lookupKey conn (getRoom s ref).clients = some username) →
      ∀ r' room',
        lookupKey r' (cleanupConn s ref roomID conn username).1.heap = some room' →
        roomI2 room') ∧
    (∀ (s : ServerState) (roomID : String),
      heapWF s →
      ∀ r' room', lookupKey r' (resolveOrCreate s roomID).1.heap = some room' →
        roomI2 room') ∧
    (∀ (s : ServerState) (ref : RoomRef) (conn : Conn) (u k pk0 : String),
      lookupKey u (getRoom s ref).publicKeys = some pk0 →
      registerConn s ref conn u k = (s, false)) := by
  refine ⟨roomWF_empty.2.2, ?_, ?_, ?_, ?_⟩
  · intro s ref conn u k hall hfresh r' room' hr'
    exact (registerConn_preserves_wf hall hfresh r' room' hr').2.2
  · intro s ref roomID conn username hall hconn r' room' hr'
    exact (cleanupConn_preserves_wf hall hconn r' room' hr').2.2
  · intro s roomID hall r' room' hr'
    exact (resolveOrCreate_preserves_wf hall r' room' hr').2.2
  · intro s ref conn u k pk0 h
    simp [registerConn, h]

/-- Concrete base state for the C9 witness: room `R` (instance `0`)
containing `bob` (connection 5). -/
def c9s0 : ServerState :=
  ⟨[("R", 0)], [(0, ⟨[(5, "bob")], [("bob", "kb")]⟩)], 1⟩

/-- Witness for `c9_i2_preserved`: I2 after `carol` (connection 6) joins
room `R` of `c9s0`, after `bob` leaves, after a fresh room is created,
and the no-mutation collision case. -/
theorem c9_witness :
    roomI2 Room.empty ∧
    roomI2 ⟨[(5, "bob"), (6, "carol")], [("bob", "kb"), ("carol", "kc")]⟩ ∧
    roomI2 ⟨[], []⟩ ∧
    roomI2 Room.empty ∧
    registerConn c9s0 0 7 "bob" "k7" = (c9s0, false) := by
  have hall : heapWF c9s0 := by
    intro ref room h
    have hm := lookupKey_mem h
    simp only [c9s0, List.mem_cons, List.not_mem_nil, or_false, Prod.mk.injEq] at hm
    obtain ⟨_, h2⟩ := hm
    subst h2
    refine ⟨by decide, ?_, fun u => ?_⟩
    · show (["bob"] : List String).Nodup
      decide
    · show u ∈ ["bob"] ↔ u ∈ ["bob"]
      exact Iff.rfl
  refine ⟨c9_i2_preserved.1, ?_, ?_, ?_, ?_⟩
  · exact c9_i2_preserved.2.1 c9s0 0 6 "carol" "kc" hall (by decide) 0
      ⟨[(5, "bob"), (6, "carol")], [("bob", "kb"), ("carol", "kc")]⟩ (by decide)
  · exact c9_i2_preserved.2.2.1 c9s0 0 "R" 5 "bob" hall (Or.inr (by decide)) 0
      ⟨[], []⟩ (by decide)
  · exact c9_i2_preserved.2.2.2.1 c9s0 "S" hall 1 Room.empty (by decide)
  · exact c9_i2_preserved.2.2.2.2 c9s0 0 7 "bob" "k7" "kb" (by decide)

/-! ### Announcement-list lemmas for the join phase -/

theorem filter_pk_ne_all {l : List (String × String)} {u : String}
    (h : u ∉ l.map Prod.fst) : l.filter (fun p => p.1 ≠ u) = l := by
  rw [List.filter_eq_self]
  intro p hp
  simp only [decide_eq_true_eq, Ne]
  exact fun hh => h (List.mem_map.mpr ⟨p, hp, hh⟩)

theorem map_pair_none {l : List (Conn × String)} {c : Conn}
    (h : c ∉ l.map Prod.fst) (msg : WSMessage) :
    (l.map (fun p => (p.1, msg))).filter (fun d => d.1 = c) = [] := by
  rw [List.filter_eq_nil_iff]
  intro d hd
  obtain ⟨p, hp, hpd⟩ := List.mem_map.mp hd
  subst hpd
  simp only [decide_eq_true_eq]
  exact fun hh => h (List.mem_map.mpr ⟨p, hp, hh⟩)

theorem map_pair_once {l : List (Conn × String)} {c : Conn} {name : String}
    (hk : (l.map Prod.fst).Nodup) (hm : (c, name) ∈ l) (msg : WSMessage) :
    (l.map (fun p => (p.1, msg))).filter (fun d => d.1 = c) = [(c, msg)] := by
  induction l with
  | nil => simp at hm
  | cons p rest ih =>
    obtain ⟨c', n⟩ := p
    simp only [List.map_cons, List.nodup_cons] at hk
    by_cases hcc : c' = c
    · subst hcc
      rw [List.map_cons, List.filter_cons_of_pos (by simp)]
      rw [map_pair_none hk.1 msg]
    · have hrest : (c, name) ∈ rest := by
        rcases List.mem_cons.mp hm with h | h
        · exact absurd (congrArg Prod.fst h).symm hcc
        · exact h
      rw [List.map_cons, List.filter_cons_of_neg (by simp [hcc])]
      exact ih hk.2 hrest

theorem map_pk_none {l : List (String × String)} {name : String}
    (h : name ∉ l.map Prod.fst) (roomId : String) :
    ((l.map (fun p => (⟨"pubkey", p.1, "", roomId, "", p.2⟩ : WSMessage))).filter
      (fun m => m.from_ = name)) = [] := by
  rw [List.filter_eq_nil_iff]
  intro m hm
  obtain ⟨p, hp, hpm⟩ := List.mem_map.mp hm
  subst hpm
  simp only [decide_eq_true_eq]
  exact fun hh => h (List.mem_map.mpr ⟨p, hp, hh⟩)

theorem map_pk_once {l : List (String × String)} {name pk : String}
    (hn : (l.map Prod.fst).Nodup) (hm : (name, pk) ∈ l) (roomId : String) :
    ((l.map (fun p => (⟨"pubkey", p.1, "", roomId, "", p.2⟩ : WSMessage))).filter
      (fun m => m.from_ = name)) = [⟨"pubkey", name, "", roomId, "", pk⟩] := by
  induction l with
  | nil => simp at hm
  | cons p rest ih =>
    obtain ⟨n', k'⟩ := p
    simp only [List.map_cons, List.nodup_cons] at hn
    by_cases h : n' = name
    · subst h
      have hkpk : k' = pk := by
        rcases List.mem_cons.mp hm with h | h
        · exact (congrArg Prod.snd h).symm
        · exact absurd (List.mem_map.mpr ⟨(n', pk), h, rfl⟩) hn.1
      subst hkpk
      rw [List.map_cons, List.filter_cons_of_pos (by simp)]
      rw [map_pk_none hn.1 roomId]
    · have hrest : (name, pk) ∈ rest := by
        rcases List.mem_cons.mp hm with hh | hh
        · exact absurd (congrArg Prod.fst hh).symm h
        · exact hh
      rw [List.map_cons, List.filter_cons_of_neg (by simp [h])]
      exact ih hn.2 hrest

/-- The success path of the join phase, computed: when the handshake
passes, the username is free in the resolved room and the connection is
fresh, `handleJoin` registers the connection and produces the `join`
announcement to exactly the pre-existing members and one `pubkey`
envelope to the joiner per pre-existing `publicKeys` entry. -/
theorem handleJoin_success {s : ServerState} {conn : Conn} {j : WSMessage}
    {room0 : Room} (hok : handshakeOK (some j) = true)
    (hroom : getRoom (resolveOrCreate s j.roomId).1 (resolveOrCreate s j.roomId).2 = room0)
    (hfree : lookupKey j.from_ room0.publicKeys = none)
    (hfresh : lookupKey conn room0.clients = none) :
    handleJoin s conn (some j) =
      JoinOutcome.joined
        (registerConn (resolveOrCreate s j.roomId).1 (resolveOrCreate s j.roomId).2
          conn j.from_ j.publicKey).1
        (resolveOrCreate s j.roomId).2
        (room0.clients.map
          (fun p => (p.1, ⟨"join", j.from_, "", j.roomId, "", j.publicKey⟩)))
        (room0.publicKeys.map
          (fun p => ⟨"pubkey", p.1, "", j.roomId, "", p.2⟩)) := by
  have hfree' : lookupKey j.from_
      (getRoom (resolveOrCreate s j.roomId).1
        (resolveOrCreate s j.roomId).2).publicKeys = none := by
    rw [hroom]
    exact hfree
  have href := @registerConn_heap_eq (resolveOrCreate s j.roomId).1
    (resolveOrCreate s j.roomId).2 conn j.from_ j.publicKey hfree'
  have e2 : getRoom (registerConn (resolveOrCreate s j.roomId).1
      (resolveOrCreate s j.roomId).2 conn j.from_ j.publicKey).1
      (resolveOrCreate s j.roomId).2 =
      ⟨room0.clients ++ [(conn, j.from_)],
       room0.publicKeys ++ [(j.from_, j.publicKey)]⟩ := by
    simp only [getRoom]
    rw [href.1, lookupKey_insertKey_self]
    rw [hroom]
    rw [insertKey_eq_append _ hfresh, insertKey_eq_append _ hfree]
    rfl
  have hc : conn ∉ room0.clients.map Prod.fst :=
    (lookupKey_eq_none_iff conn room0.clients).mp hfresh
  have hu : j.from_ ∉ room0.publicKeys.map Prod.fst :=
    (lookupKey_eq_none_iff j.from_ room0.publicKeys).mp hfree
  have hbro : broadcast
      (some (⟨room0.clients ++ [(conn, j.from_)],
             room0.publicKeys ++ [(j.from_, j.publicKey)]⟩ : Room)) (some conn)
      ⟨"join", j.from_, "", j.roomId, "", j.publicKey⟩ =
      room0.clients.map
        (fun p => (p.1, ⟨"join", j.from_, "", j.roomId, "", j.publicKey⟩)) := by
    show ((room0.clients ++ [(conn, j.from_)]).filter
        (fun p => some p.1 ≠ some conn)).map _ = _
    rw [List.filter_append, filter_ne_all hc,
      List.filter_cons_of_neg (by simp), List.filter_nil, List.append_nil]
  have hpkr : pubkeyReplay
      (⟨room0.clients ++ [(conn, j.from_)],
        room0.publicKeys ++ [(j.from_, j.publicKey)]⟩ : Room) j.from_ j.roomId =
      room0.publicKeys.map (fun p => ⟨"pubkey", p.1, "", j.roomId, "", p.2⟩) := by
    show ((room0.publicKeys ++ [(j.from_, j.publicKey)]).filter
        (fun p => p.1 ≠ j.from_)).map _ = _
    rw [List.filter_append, filter_pk_ne_all hu,
      List.filter_cons_of_neg (by simp), List.filter_nil, List.append_nil]
  simp only [handleJoin, hok, if_true, ite_true]
  rw [if_pos href.2]
  rw [e2, hbro, hpkr]

/-! ### Claim C5 — one `pubkey` per existing member, one `join` per member -/

/-- C5: on a successful join into a room `room0` that already has members,
(a) the `join` announcement fan-out consists of exactly one delivery per
pre-existing member — each member connection appears exactly once among
the recipients, and the joiner itself never does — and (b) the joiner is
sent exactly one `pubkey` envelope per pre-existing member, carrying that
member's stored public key, and none for itself. -/
theorem c5_join_announcements (s : ServerState) (conn : Conn) (j : WSMessage)
    (room0 : Room) (hok : handshakeOK (some j) = true)
    (hroom : getRoom (resolveOrCreate s j.roomId).1 (resolveOrCreate s j.roomId).2 = room0)
    (hfree : lookupKey j.from_ room0.publicKeys = none)
    (hfresh : lookupKey conn room0.clients = none)
    (hk : (room0.clients.map Prod.fst).Nodup)
    (hpk : (room0.publicKeys.map Prod.fst).Nodup) :
    handleJoin s conn (some j) =
      JoinOutcome.joined
        (registerConn (resolveOrCreate s j.roomId).1 (resolveOrCreate s j.roomId).2
          conn j.from_ j.publicKey).1
        (resolveOrCreate s j.roomId).2
        (room0.clients.map
          (fun p => (p.1, ⟨"join", j.from_, "", j.roomId, "", j.publicKey⟩)))
        (room0.publicKeys.map
          (fun p => ⟨"pubkey", p.1, "", j.roomId, "", p.2⟩)) ∧
    (∀ c name, (c, name) ∈ room0.clients →
      (room0.clients.map
        (fun p => (p.1, (⟨"join", j.from_, "", j.roomId, "", j.publicKey⟩ : WSMessage)))).filter
          (fun d => d.1 = c) =
        [(c, ⟨"join", j.from_, "", j.roomId, "", j.publicKey⟩)]) ∧
    (room0.clients.map
      (fun p => (p.1, (⟨"join", j.from_, "", j.roomId, "", j.publicKey⟩ : WSMessage)))).filter
        (fun d => d.1 = conn) = [] ∧
    (∀ name pk, (name, pk) ∈ room0.publicKeys →
      ((room0.publicKeys.map
        (fun p => (⟨"pubkey", p.1, "", j.roomId, "", p.2⟩ : WSMessage))).filter
          (fun m => m.from_ = name)) =
        [⟨"pubkey", name, "", j.roomId, "", pk⟩]) ∧
    (∀ m ∈ room0.publicKeys.map
        (fun p => (⟨"pubkey", p.1, "", j.roomId, "", p.2⟩ : WSMessage)),
      m.from_ ≠ j.from_) := by
  refine ⟨handleJoin_success hok hroom hfree hfresh, ?_, ?_, ?_, ?_⟩
  · intro c name hm
    exact map_pair_once hk hm _
  · exact map_pair_none ((lookupKey_eq_none_iff conn room0.clients).mp hfresh) _
  · intro name pk hm
    exact map_pk_once hpk hm j.roomId
  · intro m hm
    obtain ⟨p, hp, hpm⟩ := List.mem_map.mp hm
    subst hpm
    show p.1 ≠ j.from_
    exact fun hh =>
      ((lookupKey_eq_none_iff j.from_ room0.publicKeys).mp hfree)
        (List.mem_map.mpr ⟨p, hp, hh⟩)

/-- Witness for `c5_join_announcements`: `alice` (connection 1) joins
room `room1`, which already contains `bob` (connection 2, key `kb`):
`bob` gets exactly one `join` announcement, `alice` gets exactly one
`pubkey` envelope, for `bob`'s key. -/
theorem c5_witness :
    handleJoin ⟨[("room1", 0)], [(0, ⟨[(2, "bob")], [("bob", "kb")]⟩)], 1⟩ 1
      (some ⟨"join", "alice", "", "room1", "", "ka"⟩) =
      JoinOutcome.joined
        (registerConn
          (resolveOrCreate ⟨[("room1", 0)], [(0, ⟨[(2, "bob")], [("bob", "kb")]⟩)], 1⟩
            "room1").1
          (resolveOrCreate ⟨[("room1", 0)], [(0, ⟨[(2, "bob")], [("bob", "kb")]⟩)], 1⟩
            "room1").2
          1 "alice" "ka").1
        (resolveOrCreate ⟨[("room1", 0)], [(0, ⟨[(2, "bob")], [("bob", "kb")]⟩)], 1⟩
          "room1").2
        [(2, ⟨"join", "alice", "", "room1", "", "ka"⟩)]
        [⟨"pubkey", "bob", "", "room1", "", "kb"⟩] ∧
    ([(2, (⟨"join", "alice", "", "room1", "", "ka"⟩ : WSMessage))].filter
      (fun d => d.1 = 2) = [(2, ⟨"join", "alice", "", "room1", "", "ka"⟩)]) ∧
    ([(2, (⟨"join", "alice", "", "room1", "", "ka"⟩ : WSMessage))].filter
      (fun d => d.1 = 1) = []) ∧
    ([(⟨"pubkey", "bob", "", "room1", "", "kb"⟩ : WSMessage)].filter
      (fun m => m.from_ = "bob") = [⟨"pubkey", "bob", "", "room1", "", "kb"⟩]) := by
  have h := c5_join_announcements
    ⟨[("room1", 0)], [(0, ⟨[(2, "bob")], [("bob", "kb")]⟩)], 1⟩ 1
    ⟨"join", "alice", "", "room1", "", "ka"⟩
    ⟨[(2, "bob")], [("bob", "kb")]⟩
    (by decide) (by decide) (by decide) (by decide) (by decide) (by decide)
  exact ⟨h.1, h.2.1 2 "bob" (by decide), h.2.2.1, h.2.2.2.1 "bob" "kb" (by decide)⟩

end GoChat
